import Mathlib

/-!
Verification of the centered moving-average computation in
`scripts/generate_moving_average.py`.

The repository's core function `compute_moving_average(data, window_size)`
maps over the indices of `data` (a list of `{date, production}` records),
and for each index `i` computes

  half_window = window_size // 2
  start       = max(0, i - half_window)
  end         = min(len(data), start + window_size)
  window      = [data[j]['production'] for j in range(start, end)]
  average     = sum(window) / len(window)

and emits `{date: data[i]['date'], production: round(average, 1)}`.

We embed this shallowly: `production` values are modelled as exact
rationals (`ℚ`), Python's `round(x, 1)` as round-half-to-even at one
decimal on `ℚ`, and the fallible parts (indexing, the division that
raises `ZeroDivisionError` on an empty window) as `Option`.
-/

/-- A row of the dataset: `{'date': ..., 'production': ...}`. -/
structure Sample where
  date : String
  production : ℚ
deriving DecidableEq, Repr

instance : Inhabited Sample := ⟨⟨"", 0⟩⟩

/-- `half_window = window_size // 2` (Python floor division on a
nonnegative int, embedded into `ℤ`). -/
def half_window (window_size : ℕ) : ℤ := (window_size : ℤ) / 2

/-- `start = max(0, i - half_window)` with Python int arithmetic. -/
def windowStart (window_size i : ℕ) : ℤ :=
  max 0 ((i : ℤ) - half_window window_size)

/-- `end = min(len(data), start + window_size)`. -/
def windowStop (n window_size i : ℕ) : ℤ :=
  min (n : ℤ) (windowStart window_size i + (window_size : ℤ))

/-- `[data[j]['production'] for j in range(start, end)]`: the contiguous
slice of `data` from `start` (inclusive) to `end` (exclusive), projected
to the `production` field.  Since `0 ≤ start` and `end ≤ len(data)`, the
comprehension over `range(start, end)` is the slice `data[start:end]`,
rendered with `drop`/`take`. -/
def window_values (data : List Sample) (window_size i : ℕ) : List ℚ :=
  ((data.drop (windowStart window_size i).toNat).take
      (windowStop data.length window_size i - windowStart window_size i).toNat).map
    Sample.production

/-- The floor of a rational, computed from its reduced fraction. -/
def ratFloor (x : ℚ) : ℤ := x.num / (x.den : ℤ)

theorem ratFloor_eq_floor (x : ℚ) : ratFloor x = ⌊x⌋ := Rat.floor_def.symm

/-- Python's banker's rounding of a rational to the nearest integer:
round half to even. -/
def roundHalfEven (x : ℚ) : ℤ :=
  let f : ℤ := ratFloor x
  let r : ℚ := x - (f : ℚ)
  if r < 1/2 then f
  else if 1/2 < r then f + 1
  else if f % 2 = 0 then f else f + 1

/-- Python's `round(x, 1)`: round-half-to-even at one decimal place
(idealised over exact rationals). -/
def round1 (x : ℚ) : ℚ := (roundHalfEven (10 * x) : ℚ) / 10

/-- The body of the loop at index `i`: `none` models a Python exception
(an out-of-range index, or `ZeroDivisionError` when the window is
empty). -/
def movingAverageAt (data : List Sample) (window_size i : ℕ) : Option Sample :=
  if hi : i < data.length then
    let vals := window_values data window_size i
    if vals.length = 0 then none
    else some { date := (data.get ⟨i, hi⟩).date
                production := round1 (vals.sum / (vals.length : ℚ)) }
  else none

/-- Sequencing of the fallible loop body over a list of indices: the
first failure aborts the whole computation, as a raised exception
would. -/
def collectM {α β : Type} (f : α → Option β) : List α → Option (List β)
  | [] => some []
  | a :: l => (f a).bind fun b => (collectM f l).map fun bs => b :: bs

/-- `compute_moving_average(data, window_size)`: the result list built by
the `for i in range(len(data))` loop. -/
def compute_moving_average (data : List Sample) (window_size : ℕ) :
    Option (List Sample) :=
  collectM (movingAverageAt data window_size) (List.range data.length)

/-- The series of the spec's worked example: values `[1,2,3,4,5,6]`,
labels `d0..d5`. -/
def exSeries : List Sample :=
  [⟨"d0", 1⟩, ⟨"d1", 2⟩, ⟨"d2", 3⟩, ⟨"d3", 4⟩, ⟨"d4", 5⟩, ⟨"d5", 6⟩]

/-! ### Basic bounds on the window -/

lemma windowStart_nonneg (w i : ℕ) : 0 ≤ windowStart w i := le_max_left 0 _

lemma windowStart_le_self (w i : ℕ) : windowStart w i ≤ (i : ℤ) := by
  unfold windowStart half_window
  omega

lemma self_lt_windowStop (n w i : ℕ) (hw : 1 ≤ w) (hi : i < n) :
    (i : ℤ) < windowStop n w i := by
  unfold windowStop windowStart half_window
  omega

lemma windowStop_le (n w i : ℕ) : windowStop n w i ≤ (n : ℤ) :=
  min_le_left _ _

lemma window_values_length (data : List Sample) (w i : ℕ) (hi : i < data.length) :
    (window_values data w i).length
      = (windowStop data.length w i - windowStart w i).toNat := by
  unfold window_values
  rw [List.length_map, List.length_take, List.length_drop]
  have h1 : 0 ≤ windowStart w i := windowStart_nonneg w i
  have h2 : windowStart w i ≤ (i : ℤ) := windowStart_le_self w i
  have h3 : windowStop data.length w i ≤ (data.length : ℤ) :=
    windowStop_le data.length w i
  omega

lemma window_values_length_pos (data : List Sample) (w i : ℕ) (hw : 1 ≤ w)
    (hi : i < data.length) : 0 < (window_values data w i).length := by
  rw [window_values_length data w i hi]
  have h2 : windowStart w i ≤ (i : ℤ) := windowStart_le_self w i
  have h4 : (i : ℤ) < windowStop data.length w i :=
    self_lt_windowStop data.length w i hw hi
  omega

/-! ### A closed form for the loop -/

/-- The sample emitted at index `i` (meaningful when `i < data.length`). -/
def outSample (data : List Sample) (window_size i : ℕ) : Sample :=
  { date := (data.getD i default).date
    production := round1 ((window_values data window_size i).sum /
      ((window_values data window_size i).length : ℚ)) }

/-- The whole output list, as a total function. -/
def outList (data : List Sample) (window_size : ℕ) : List Sample :=
  (List.range data.length).map (outSample data window_size)

lemma movingAverageAt_eq_some (data : List Sample) (w i : ℕ) (hw : 1 ≤ w)
    (hi : i < data.length) :
    movingAverageAt data w i = some (outSample data w i) := by
  have hpos := window_values_length_pos data w i hw hi
  unfold movingAverageAt outSample
  rw [dif_pos hi, if_neg (by omega), List.getD_eq_getElem data default hi]
  simp [List.get_eq_getElem]

lemma collectM_eq_map {α β : Type} (f : α → Option β) (g : α → β) :
    ∀ l : List α, (∀ a ∈ l, f a = some (g a)) → collectM f l = some (l.map g) := by
  intro l
  induction l with
  | nil => intro _; rfl
  | cons a l ih =>
    intro h
    have ha := h a (List.mem_cons_self a l)
    have hl := ih fun x hx => h x (List.mem_cons_of_mem a hx)
    simp [collectM, ha, hl]

lemma compute_eq_outList (data : List Sample) (w : ℕ) (hw : 1 ≤ w) :
    compute_moving_average data w = some (outList data w) := by
  unfold compute_moving_average outList
  exact collectM_eq_map _ _ _ fun i hi =>
    movingAverageAt_eq_some data w i hw (List.mem_range.mp hi)

lemma outList_length (data : List Sample) (w : ℕ) :
    (outList data w).length = data.length := by
  simp [outList]

lemma outList_getD (data : List Sample) (w i : ℕ) (hi : i < data.length) :
    (outList data w).getD i default = outSample data w i := by
  have hi' : i < (outList data w).length := by rw [outList_length]; exact hi
  rw [List.getD_eq_getElem _ default hi']
  simp [outList]

/-! ### The spec's description of the algorithm (§4.1), stated separately
for the refinement claim.  These definitions follow the specification's
wording: step 1 `half = w / 2` (floor division), step 2
`start = max(0, i - half)`, step 3 `end = min(len(series), start + w)`,
steps 4–5 window `series[start:end]` and its arithmetic mean. -/

/-- Spec step 1: `half = w / 2` using integer (floor) division. -/
def spec_half (w : ℕ) : ℤ := (w : ℤ) / 2

/-- Spec step 2: `start = max(0, i - half)`. -/
def spec_start (w i : ℕ) : ℤ := max 0 ((i : ℤ) - spec_half w)

/-- Spec step 3: `end = min(len(series), start + w)`. -/
def spec_stop (n w i : ℕ) : ℤ := min (n : ℤ) (spec_start w i + (w : ℤ))

/-- Spec steps 4–5: the arithmetic mean of the values at indices `start`
(inclusive) to `end` (exclusive). -/
def spec_mean (series : List Sample) (w i : ℕ) : ℚ :=
  let vals := ((series.drop (spec_start w i).toNat).take
    (spec_stop series.length w i - spec_start w i).toNat).map Sample.production
  vals.sum / (vals.length : ℚ)

lemma spec_mean_eq_code (series : List Sample) (w i : ℕ) :
    spec_mean series w i
      = (window_values series w i).sum / ((window_values series w i).length : ℚ) := rfl

/-! ### Claims -/

/-- **C1.** For every series and every window size `w ≥ 1`,
`compute_moving_average` follows the specified algorithm at each index `i`:
`half = w` floor-div 2, `start = max(0, i - half)`,
`end = min(len(series), start + w)`, and the output value at `i` is the
arithmetic mean of the values at indices `start` (inclusive) to `end`
(exclusive), rounded to one decimal place; the output label at `i` is the
input label at `i`. -/
theorem compute_follows_spec_algorithm (series : List Sample) (w : ℕ) (hw : 1 ≤ w) :
    ∃ out, compute_moving_average series w = some out ∧
      out.length = series.length ∧
      ∀ i, i < series.length →
        out.getD i default =
          { date := (series.getD i default).date
            production := round1 (spec_mean series w i) } := by
  refine ⟨outList series w, compute_eq_outList series w hw, outList_length series w, ?_⟩
  intro i hi
  rw [outList_getD series w i hi]
  rfl

/-- Witness for C1: the theorem applied to the worked-example series and `w = 4`. -/
theorem compute_follows_spec_algorithm_witness :
    ∃ out, compute_moving_average exSeries 4 = some out ∧
      out.length = exSeries.length ∧
      ∀ i, i < exSeries.length →
        out.getD i default =
          { date := (exSeries.getD i default).date
            production := round1 (spec_mean exSeries 4 i) } :=
  compute_follows_spec_algorithm exSeries 4 (by decide)

/-- **C3.** For every series and every `w ≥ 1`, the output has exactly the
length of the input and carries the input's labels in order; only the
values are recomputed. -/
theorem length_and_labels_preserved (series : List Sample) (w : ℕ) (hw : 1 ≤ w) :
    ∃ out, compute_moving_average series w = some out ∧
      out.length = series.length ∧
      out.map Sample.date = series.map Sample.date := by
  refine ⟨outList series w, compute_eq_outList series w hw, outList_length series w, ?_⟩
  apply List.ext_getElem (by simp [outList])
  intro i h1 h2
  have hi : i < series.length := by simpa using h2
  simp [outList, outSample, List.getElem?_eq_getElem hi]

/-- Witness for C3: the theorem applied to the worked-example series and `w = 4`. -/
theorem length_and_labels_preserved_witness :
    ∃ out, compute_moving_average exSeries 4 = some out ∧
      out.length = exSeries.length ∧
      out.map Sample.date = exSeries.map Sample.date :=
  length_and_labels_preserved exSeries 4 (by decide)

/-- **C4.** With window size 1 the computation is the identity on values up
to rounding: each output sample keeps its label and carries its own input
value rounded to one decimal place. -/
theorem identity_at_window_one (series : List Sample) :
    compute_moving_average series 1
      = some (series.map fun s => { date := s.date, production := round1 s.production }) := by
  rw [compute_eq_outList series 1 le_rfl]
  congr 1
  apply List.ext_getElem (by simp [outList])
  intro i h1 h2
  have hi : i < series.length := by simpa using h2
  have hstart : (windowStart 1 i).toNat = i := by
    unfold windowStart half_window; omega
  have hstop : (windowStop series.length 1 i - windowStart 1 i).toNat = 1 := by
    unfold windowStop windowStart half_window; omega
  have hwv : window_values series 1 i = [(series.get ⟨i, hi⟩).production] := by
    unfold window_values
    rw [hstart, hstop, List.take_one_drop_eq_of_lt_length hi]
    rfl
  simp [outList, outSample, hwv, List.getElem?_eq_getElem hi,
    List.get_eq_getElem]

/-- **C5.** For every non-empty series, `w ≥ 1` and index `i`, the window is
non-empty: `start < end`, the list of window values has non-zero length (so
the division is never by zero), and the loop body succeeds. -/
theorem window_nonempty_no_div_by_zero (series : List Sample) (w i : ℕ)
    (hw : 1 ≤ w) (hi : i < series.length) :
    windowStart w i < windowStop series.length w i ∧
    (window_values series w i).length ≠ 0 ∧
    (movingAverageAt series w i).isSome = true := by
  have h1 : windowStart w i ≤ (i : ℤ) := windowStart_le_self w i
  have h2 : (i : ℤ) < windowStop series.length w i :=
    self_lt_windowStop series.length w i hw hi
  have h3 := window_values_length_pos series w i hw hi
  refine ⟨by omega, by omega, ?_⟩
  rw [movingAverageAt_eq_some series w i hw hi]
  rfl

/-- Witness for C5: the theorem applied to the worked-example series,
`w = 4`, `i = 0`. -/
theorem window_nonempty_no_div_by_zero_witness :
    windowStart 4 0 < windowStop exSeries.length 4 0 ∧
    (window_values exSeries 4 0).length ≠ 0 ∧
    (movingAverageAt exSeries 4 0).isSome = true :=
  window_nonempty_no_div_by_zero exSeries 4 0 (by decide) (by decide)

/-- **C10.** For every non-empty series, `w ≥ 1` and index `i`, the window
used at `i` contains index `i` itself: `start ≤ i < end`. -/
theorem window_contains_own_index (series : List Sample) (w i : ℕ)
    (hw : 1 ≤ w) (hi : i < series.length) :
    windowStart w i ≤ (i : ℤ) ∧ (i : ℤ) < windowStop series.length w i :=
  ⟨windowStart_le_self w i, self_lt_windowStop series.length w i hw hi⟩

/-- Witness for C10: the theorem applied to the worked-example series,
`w = 4`, `i = 1`. -/
theorem window_contains_own_index_witness :
    windowStart 4 1 ≤ (1 : ℤ) ∧ (1 : ℤ) < windowStop exSeries.length 4 1 :=
  window_contains_own_index exSeries 4 1 (by decide) (by decide)

/-! ### Global-average saturation (C2) -/

lemma window_values_full (data : List Sample) (w i : ℕ)
    (hi : i < data.length) (hw : 1 ≤ w)
    (hsat : (data.length : ℤ) - 1 ≤ half_window w) :
    window_values data w i = data.map Sample.production := by
  unfold half_window at hsat
  have hstart : (windowStart w i).toNat = 0 := by
    unfold windowStart half_window
    omega
  have hstop : (windowStop data.length w i - windowStart w i).toNat = data.length := by
    unfold windowStop windowStart half_window
    omega
  unfold window_values
  rw [hstart, hstop, List.drop_zero, List.take_length]

/-- **C2, counterexample.** The claim fails as stated: for the series with
values `[1,2,3,4,5,6]` and `w = 6` (so `w ≥ len(series)`), the output values
are `[3.5, 3.5, 3.5, 3.5, 4, 4.5]`, while the global average rounded to one
decimal is `3.5`; the value `4.5` at index 5 differs from it, so not every
output value equals the rounded global average. -/
theorem global_average_saturation_cex :
    (compute_moving_average exSeries 6).map (List.map Sample.production)
        = some [3.5, 3.5, 3.5, 3.5, 4, 4.5]
    ∧ round1 ((exSeries.map Sample.production).sum / (exSeries.length : ℚ)) = 3.5
    ∧ (4.5 : ℚ) ≠ 3.5 := by
  refine ⟨?_, ?_, ?_⟩ <;> with_unfolding_all decide

/-- **C2, amended.** For every non-empty series and every `w ≥ 1` whose half
window `w` floor-div `2` is at least `len(series) - 1` (this is what makes
`start = 0` at every index; `w ≥ len(series)` alone is not enough), every
output value equals the average of all input values, rounded to one decimal
place. -/
theorem global_average_saturation_amended (series : List Sample) (w : ℕ)
    (hne : series ≠ []) (hw : 1 ≤ w)
    (hsat : (series.length : ℤ) - 1 ≤ half_window w) :
    ∃ out, compute_moving_average series w = some out ∧
      ∀ s ∈ out, s.production
        = round1 ((series.map Sample.production).sum / ((series.length : ℕ) : ℚ)) := by
  refine ⟨outList series w, compute_eq_outList series w hw, ?_⟩
  intro s hs
  obtain ⟨i, hi, rfl⟩ := List.mem_map.mp hs
  have hi' : i < series.length := List.mem_range.mp hi
  show round1 ((window_values series w i).sum / ((window_values series w i).length : ℚ))
      = round1 ((series.map Sample.production).sum / ((series.length : ℕ) : ℚ))
  rw [window_values_full series w i hi' hw hsat, List.length_map]

/-- The two-point series used to witness the amended C2. -/
def pairSeries : List Sample := [⟨"m0", 1⟩, ⟨"m1", 2⟩]

/-- Witness for the amended C2: the theorem applied to a two-point series
with `w = 2` (half window `1 ≥ len - 1`). -/
theorem global_average_saturation_amended_witness :
    ∃ out, compute_moving_average pairSeries 2 = some out ∧
      ∀ s ∈ out, s.production
        = round1 ((pairSeries.map Sample.production).sum / ((pairSeries.length : ℕ) : ℚ)) :=
  global_average_saturation_amended pairSeries 2 (by decide) (by decide) (by decide)

/-- **C6.** On the series with values `[1,2,3,4,5,6]` (labels `d0..d5`) and
`w = 4`, the output values are `2.5` at indices 0, 1 and 2, and `5.0` at
index 5 (the full output value list is `[2.5, 2.5, 2.5, 3.5, 4.5, 5.0]`). -/
theorem left_edge_asymmetry_example :
    (compute_moving_average exSeries 4).map (List.map Sample.production)
      = some [2.5, 2.5, 2.5, 3.5, 4.5, 5.0] := by
  with_unfolding_all decide

/-- **C7.** On the empty series, for every `w ≥ 1`, the computation returns
the empty series and no division by zero occurs: the loop body never runs,
so the result is `some []` rather than the `none` of a raised exception. -/
theorem empty_input_returns_empty (w : ℕ) (hw : 1 ≤ w) :
    compute_moving_average [] w = some [] := rfl

/-- Witness for C7: the theorem applied at `w = 1`. -/
theorem empty_input_returns_empty_witness :
    1 ≤ 1 ∧ compute_moving_average [] 1 = some [] :=
  ⟨le_rfl, empty_input_returns_empty 1 le_rfl⟩

/-- **C8.** For every series, `w ≥ 1` and index `i`, the emitted value is
obtained by applying one-decimal rounding exactly once, after the average:
it is `round1` of the quotient of the sum of the raw (unrounded) window
values by their count, and no rounding enters the window sum.  The rounding
rule is the host default, round-half-to-even: an average of exactly `0.25`
rounds down to `0.2` and `0.35` rounds up to `0.4`. -/
theorem rounding_applied_once_after_average (series : List Sample) (w i : ℕ)
    (hw : 1 ≤ w) (hi : i < series.length) :
    movingAverageAt series w i
      = some { date := (series.getD i default).date
               production := round1 ((window_values series w i).sum /
                 ((window_values series w i).length : ℚ)) }
    ∧ round1 0.25 = 0.2 ∧ round1 0.35 = 0.4 := by
  refine ⟨movingAverageAt_eq_some series w i hw hi, ?_, ?_⟩ <;>
    with_unfolding_all decide

/-- Witness for C8: the theorem applied to the worked-example series,
`w = 4`, `i = 0`. -/
theorem rounding_applied_once_after_average_witness :
    movingAverageAt exSeries 4 0
      = some { date := (exSeries.getD 0 default).date
               production := round1 ((window_values exSeries 4 0).sum /
                 ((window_values exSeries 4 0).length : ℚ)) }
    ∧ round1 0.25 = 0.2 ∧ round1 0.35 = 0.4 :=
  rounding_applied_once_after_average exSeries 4 0 (by decide) (by decide)
